import Mathlib

/-!
DocShield watermarking pipeline, shallowly embedded from `src/lib/watermark.ts`.

Modeling conventions used throughout this file:
- JavaScript double arithmetic is modeled as exact rational arithmetic over ℚ.
  Every concrete constant of the source (`1.1`, `0.55`, `0.3`, ...) is written
  as the corresponding rational.
- `Math.round` is `round` (floor of `x + 1/2`), matching the JS round-half-up
  behavior on the nonnegative values arising here.
- Assigning a nonnegative float to `canvas.width` / `canvas.height` performs
  the WebIDL unsigned-long conversion, which truncates toward zero; for the
  nonnegative values arising in this pipeline this is `Nat.floor`.
- `Math.random()` is an abstract stream `rng : ℕ → ℚ` of draws, consumed in
  source order; `Math.sin`, `Math.sqrt` and `Math.PI` are abstract parameters
  (`s`, `sq`, `piQ`), since only the structure of the computed values matters
  for the claims settled below.
- Canvas surfaces are total functions from integer pixel coordinates to
  values; stroke rasterization is an abstract parameter deciding which pixels
  a stroke covers (the repository code only chooses the colors painted and the
  stroke geometry, both of which are modeled faithfully).
- Stores into a `Uint8ClampedArray` (`imageData.data[i] = v`) apply the
  clamp-to-`[0,255]` and round-half-to-even conversion mandated for that type.
-/

namespace DocShield

/-- Bound `MAX_WIDTH` from the source. -/
def maxWidthLimit : ℕ := 2500

/-- Bound `MAX_HEIGHT` from the source. -/
def maxHeightLimit : ℕ := 2500

/-- The single scale factor `Math.min(MAX_WIDTH / width, MAX_HEIGHT / height)`
computed by `resizeImage`. -/
def scaleFactor (w h : ℕ) : ℚ :=
  min ((maxWidthLimit : ℚ) / w) ((maxHeightLimit : ℚ) / h)

/-- Dimensions produced by `resizeImage`: when either dimension exceeds its
bound, both are scaled by the single factor `scaleFactor` and rounded with
`Math.round`; otherwise they pass through unchanged. -/
def resizeDims (w h : ℕ) : ℕ × ℕ :=
  if maxWidthLimit < w ∨ maxHeightLimit < h then
    ((round ((w : ℚ) * scaleFactor w h)).toNat, (round ((h : ℚ) * scaleFactor w h)).toNat)
  else (w, h)

/-- Output canvas dimensions set by `processImage`:
`canvas.width = imgWidth * 1.1` and `canvas.height = imgHeight * 1.25`, where
`imgWidth`/`imgHeight` are the resized dimensions and the unsigned-long
assignment truncates the nonnegative product (see the conventions above). -/
def canvasDims (w h : ℕ) : ℕ × ℕ :=
  (⌊((resizeDims w h).1 : ℚ) * (11 / 10)⌋₊, ⌊((resizeDims w h).2 : ℚ) * (5 / 4)⌋₊)

/-- Monotonicity of `round` on ℚ, used to bound the resized dimensions. -/
theorem roundRatMono {q r : ℚ} (h : q ≤ r) : round q ≤ round r := by
  rw [round_eq, round_eq]
  exact Int.floor_le_floor (by linarith)

/-- C2: if both dimensions are within the 2500 bound, `resizeImage` passes the
dimensions through unchanged; otherwise both output dimensions are
`Math.round` of the dimension times the single factor
`min (2500/width) (2500/height)`, and both results are within their bounds. -/
theorem resizeDims_spec (w h : ℕ) (hw : 0 < w) (hh : 0 < h) :
    (w ≤ 2500 ∧ h ≤ 2500 → resizeDims w h = (w, h)) ∧
    (2500 < w ∨ 2500 < h →
      resizeDims w h =
        ((round ((w : ℚ) * min ((2500 : ℚ) / w) ((2500 : ℚ) / h))).toNat,
         (round ((h : ℚ) * min ((2500 : ℚ) / w) ((2500 : ℚ) / h))).toNat) ∧
      (resizeDims w h).1 ≤ 2500 ∧ (resizeDims w h).2 ≤ 2500) := by
  constructor
  · intro hb
    have hcond : ¬ (maxWidthLimit < w ∨ maxHeightLimit < h) := by
      simp [maxWidthLimit, maxHeightLimit]
      omega
    simp [resizeDims, hcond]
  · intro hb
    have hcond : maxWidthLimit < w ∨ maxHeightLimit < h := by
      simpa [maxWidthLimit, maxHeightLimit] using hb
    have heq : resizeDims w h =
        ((round ((w : ℚ) * scaleFactor w h)).toNat,
         (round ((h : ℚ) * scaleFactor w h)).toNat) := by
      simp [resizeDims, hcond]
    have hwQ : (0 : ℚ) < (w : ℚ) := by exact_mod_cast hw
    have hhQ : (0 : ℚ) < (h : ℚ) := by exact_mod_cast hh
    have hsw : (w : ℚ) * scaleFactor w h ≤ 2500 := by
      have h1 : scaleFactor w h ≤ (2500 : ℚ) / w := by
        simp [scaleFactor, maxWidthLimit]
      calc (w : ℚ) * scaleFactor w h ≤ (w : ℚ) * ((2500 : ℚ) / w) := by
            exact mul_le_mul_of_nonneg_left h1 (le_of_lt hwQ)
        _ = 2500 := by field_simp
    have hsh : (h : ℚ) * scaleFactor w h ≤ 2500 := by
      have h1 : scaleFactor w h ≤ (2500 : ℚ) / h := by
        simp [scaleFactor, maxHeightLimit]
      calc (h : ℚ) * scaleFactor w h ≤ (h : ℚ) * ((2500 : ℚ) / h) := by
            exact mul_le_mul_of_nonneg_left h1 (le_of_lt hhQ)
        _ = 2500 := by field_simp
    have hb1 : (round ((w : ℚ) * scaleFactor w h)).toNat ≤ 2500 := by
      have := roundRatMono hsw
      rw [show round (2500 : ℚ) = 2500 by exact_mod_cast round_natCast (α := ℚ) 2500] at this
      exact Int.toNat_le.mpr (by exact_mod_cast this)
    have hb2 : (round ((h : ℚ) * scaleFactor w h)).toNat ≤ 2500 := by
      have := roundRatMono hsh
      rw [show round (2500 : ℚ) = 2500 by exact_mod_cast round_natCast (α := ℚ) 2500] at this
      exact Int.toNat_le.mpr (by exact_mod_cast this)
    refine ⟨?_, ?_, ?_⟩
    · rw [heq]
      simp [scaleFactor, maxWidthLimit, maxHeightLimit]
    · rw [heq]; exact hb1
    · rw [heq]; exact hb2

/-- Witness for `resizeDims_spec` at the concrete input 5000 × 100: the image
exceeds the width bound and is scaled to 2500 × 50. -/
theorem resizeDims_spec_witness :
    (0 < 5000 ∧ 0 < 100) ∧ resizeDims 5000 100 = (2500, 50) := by
  refine ⟨by decide, ?_⟩
  have h := (resizeDims_spec 5000 100 (by norm_num) (by norm_num)).2 (by norm_num)
  rw [h.1]
  norm_num [min_def]
  exact ⟨rfl, rfl⟩

/-- C1 (counterexample): for a 105 × 100 input (which the resizer passes
through unchanged) the output surface width is `floor (105 * 1.1) = 115`,
whereas the claimed `round (105 * 1.1) = round 115.5 = 116`. -/
theorem canvasDims_not_round :
    (canvasDims 105 100).1 = 115 ∧
    round (((resizeDims 105 100).1 : ℚ) * (11 / 10)) = 116 ∧
    (115 : ℕ) ≠ 116 := by
  refine ⟨?_, ?_, by decide⟩
  · have h : resizeDims 105 100 = (105, 100) := by
      simp [resizeDims, maxWidthLimit, maxHeightLimit]
    rw [canvasDims, h]
    norm_num
    rw [show (231 : ℚ) / 2 = ((231 : ℕ) : ℚ) / ((2 : ℕ) : ℚ) by norm_num]
    rw [Nat.floor_div_nat, Nat.floor_natCast]
  · have h : resizeDims 105 100 = (105, 100) := by
      simp [resizeDims, maxWidthLimit, maxHeightLimit]
    rw [h]
    rw [round_eq]
    norm_num

/-- C1 (amended): the output surface dimensions are the truncations
`floor (resizedW * 1.1)` and `floor (resizedH * 1.25)` of the scaled resized
dimensions (the `canvas.width` assignment truncates rather than rounds); in
particular a 100 × 100 input yields a 110 × 125 output surface. -/
theorem canvasDims_floor_formula :
    (∀ w h : ℕ, canvasDims w h =
      ((11 * (resizeDims w h).1) / 10, (5 * (resizeDims w h).2) / 4)) ∧
    canvasDims 100 100 = (110, 125) := by
  have key : ∀ w h : ℕ, canvasDims w h =
      ((11 * (resizeDims w h).1) / 10, (5 * (resizeDims w h).2) / 4) := by
    intro w h
    rw [canvasDims]
    have e1 : (((resizeDims w h).1 : ℕ) : ℚ) * (11 / 10) =
        ((11 * (resizeDims w h).1 : ℕ) : ℚ) / ((10 : ℕ) : ℚ) := by push_cast; ring
    have e2 : (((resizeDims w h).2 : ℕ) : ℚ) * (5 / 4) =
        ((5 * (resizeDims w h).2 : ℕ) : ℚ) / ((4 : ℕ) : ℚ) := by push_cast; ring
    rw [e1, e2, Nat.floor_div_nat, Nat.floor_div_nat, Nat.floor_natCast, Nat.floor_natCast]
  refine ⟨key, ?_⟩
  rw [key 100 100]
  have h : resizeDims 100 100 = (100, 100) := by
    simp [resizeDims, maxWidthLimit, maxHeightLimit]
  rw [h]
  rfl

/-- Splitting a string into its maximal whitespace-free runs. This models
`text.trim().split(/\s+/)` from `wrapText` (structurally, so that concrete
instances evaluate in the kernel); the accumulator holds the current run in
reverse. -/
def splitWordsAux : List Char → List Char → List String
  | [], acc => if acc = [] then [] else [String.mk acc.reverse]
  | c :: cs, acc =>
      if c.isWhitespace then
        if acc = [] then splitWordsAux cs []
        else String.mk acc.reverse :: splitWordsAux cs []
      else splitWordsAux cs (c :: acc)

/-- The word list `text.trim().split(/\s+/)` used by `wrapText`. -/
def splitWords (text : String) : List String :=
  splitWordsAux text.data []

/-- Estimated width of a line in `wrapText`: character count times the
estimated average character width `fontSize * 0.55`. -/
def estWidth (line : String) (charWidth : ℚ) : ℚ :=
  (line.length : ℚ) * charWidth

/-- One iteration of the `words.forEach` loop in `wrapText`. The state is the
pair of the accumulated `lines` and the `currentLine`. -/
def wrapStep (maxWidth charWidth : ℚ) (st : List String × String) (word : String) :
    List String × String :=
  let testLine := if st.2 = "" then word else st.2 ++ " " ++ word
  if maxWidth < estWidth testLine charWidth then
    (if st.2 = "" then st.1 else st.1 ++ [st.2], word)
  else (st.1, testLine)

/-- The greedy word-wrap `wrapText` from the source: fold the loop body over
the word list and flush the trailing `currentLine` if it is nonempty. -/
def wrapText (text : String) (maxWidth fontSize : ℚ) : List String :=
  let charWidth := fontSize * (55 / 100)
  let st := (splitWords text).foldl (wrapStep maxWidth charWidth) ([], "")
  if st.2 = "" then st.1 else st.1 ++ [st.2]

/-- Invariant of the `wrapText` fold: every flushed line, and the pending
current line, either fits in `maxWidth` or is one of the original words. -/
theorem wrapFold_invariant (maxWidth charWidth : ℚ) (P : String → Prop)
    (ws : List String) (st : List String × String)
    (hlines : ∀ l ∈ st.1, estWidth l charWidth ≤ maxWidth ∨ P l)
    (hcur : st.2 = "" ∨ estWidth st.2 charWidth ≤ maxWidth ∨ P st.2)
    (hws : ∀ w ∈ ws, P w) :
    (∀ l ∈ (ws.foldl (wrapStep maxWidth charWidth) st).1,
        estWidth l charWidth ≤ maxWidth ∨ P l) ∧
    ((ws.foldl (wrapStep maxWidth charWidth) st).2 = "" ∨
      estWidth (ws.foldl (wrapStep maxWidth charWidth) st).2 charWidth ≤ maxWidth ∨
      P (ws.foldl (wrapStep maxWidth charWidth) st).2) := by
  induction ws generalizing st with
  | nil => exact ⟨hlines, hcur⟩
  | cons w ws ih =>
    rw [List.foldl_cons]
    apply ih
    · intro l hl
      rw [wrapStep] at hl
      by_cases hover : maxWidth <
          estWidth (if st.2 = "" then w else st.2 ++ " " ++ w) charWidth
      · rw [if_pos hover] at hl
        by_cases hemp : st.2 = ""
        · rw [if_pos hemp] at hl
          exact hlines l hl
        · rw [if_neg hemp] at hl
          rcases List.mem_append.mp hl with hmem | hmem
          · exact hlines l hmem
          · rcases List.mem_singleton.mp hmem with rfl
            rcases hcur with hc | hc
            · exact absurd hc hemp
            · exact hc
      · rw [if_neg hover] at hl
        exact hlines l hl
    · rw [wrapStep]
      by_cases hover : maxWidth <
          estWidth (if st.2 = "" then w else st.2 ++ " " ++ w) charWidth
      · rw [if_pos hover]
        exact Or.inr (Or.inr (hws w (List.mem_cons_self w ws)))
      · rw [if_neg hover]
        exact Or.inr (Or.inl (le_of_not_lt hover))
    · intro v hv
      exact hws v (List.mem_cons_of_mem w hv)

/-- C5: every line returned by `wrapText` either has estimated width
`charCount * 0.55 * fontSize` not exceeding `maxWidth`, or is a single
(unsplit) word of the input text, which is how an individually oversized word
comes to occupy its own line. -/
theorem wrapText_line_width (text : String) (maxWidth fontSize : ℚ)
    (line : String) (hline : line ∈ wrapText text maxWidth fontSize) :
    estWidth line (fontSize * (55 / 100)) ≤ maxWidth ∨ line ∈ splitWords text := by
  have key := wrapFold_invariant maxWidth (fontSize * (55 / 100))
    (fun l => l ∈ splitWords text) (splitWords text) ([], "")
    (by intro l hl; cases hl) (Or.inl rfl) (fun w hw => hw)
  rw [wrapText] at hline
  by_cases hemp : ((splitWords text).foldl
      (wrapStep maxWidth (fontSize * (55 / 100))) ([], "")).2 = ""
  · rw [if_pos hemp] at hline
    exact key.1 line hline
  · rw [if_neg hemp] at hline
    rcases List.mem_append.mp hline with hmem | hmem
    · exact key.1 line hmem
    · rcases List.mem_singleton.mp hmem with rfl
      rcases key.2 with hc | hc
      · exact absurd hc hemp
      · exact hc

/-- Evaluation helper: `wrapStep` with an empty current line always makes the
word the new current line and flushes nothing. -/
theorem wrapStep_empty (maxWidth charWidth : ℚ) (lines : List String) (word : String) :
    wrapStep maxWidth charWidth (lines, "") word = (lines, word) := by
  rw [wrapStep]
  by_cases hc : maxWidth < estWidth word charWidth
  · simp [hc]
  · simp [hc]

/-- Evaluation helper: `wrapStep` when the extended line still fits. -/
theorem wrapStep_fit (maxWidth charWidth : ℚ) (lines : List String) (cur word : String)
    (hne : cur ≠ "") (hfit : ¬ maxWidth < estWidth (cur ++ " " ++ word) charWidth) :
    wrapStep maxWidth charWidth (lines, cur) word = (lines, cur ++ " " ++ word) := by
  rw [wrapStep]
  simp [hne, hfit]

/-- Evaluation helper: `wrapStep` when the extended line overflows. -/
theorem wrapStep_over (maxWidth charWidth : ℚ) (lines : List String) (cur word : String)
    (hne : cur ≠ "") (hover : maxWidth < estWidth (cur ++ " " ++ word) charWidth) :
    wrapStep maxWidth charWidth (lines, cur) word = (lines ++ [cur], word) := by
  rw [wrapStep]
  simp [hne, hover]

/-- Witness for `wrapText_line_width` at a concrete input: the single
returned line fits within the maximum width. -/
theorem wrapText_line_width_witness :
    ("hi there" ∈ wrapText "hi there" 100 10) ∧
    (estWidth "hi there" (10 * (55 / 100)) ≤ 100 ∨ "hi there" ∈ splitWords "hi there") := by
  have heval : wrapText "hi there" 100 10 = ["hi there"] := by
    rw [wrapText, show splitWords "hi there" = ["hi", "there"] from by decide]
    simp only [List.foldl_cons, List.foldl_nil]
    rw [wrapStep_empty]
    rw [wrapStep_fit 100 (10 * (55 / 100)) [] "hi" "there" (by decide) (by
      rw [estWidth, show ("hi" ++ " " ++ "there" : String).length = 8 from rfl]; norm_num)]
    norm_num
    decide
  have hmem : "hi there" ∈ wrapText "hi there" 100 10 := by
    rw [heval]; exact List.mem_singleton.mpr rfl
  exact ⟨hmem, wrapText_line_width "hi there" 100 10 "hi there" hmem⟩

/-- Font size chosen by `processImage`:
`Math.max(14, Math.min(imgWidth, imgHeight) / 50)` over the resized image
dimensions. -/
def processFontSize (w h : ℕ) : ℚ := max 14 (((min w h : ℕ) : ℚ) / 50)

/-- The float value `imgWidth * 1.1` used throughout `processImage` before it
is truncated into the canvas. -/
def canvasWidthQ (w : ℕ) : ℚ := (w : ℚ) * (11 / 10)

/-- The float value `imgHeight * 1.25` used throughout `processImage`. -/
def canvasHeightQ (h : ℕ) : ℚ := (h : ℚ) * (5 / 4)

/-- Vertical image placement `imgY = (canvasHeight - imgHeight) * 0.15`. -/
def imgYQ (h : ℕ) : ℚ := (canvasHeightQ h - (h : ℚ)) * (15 / 100)

/-- Top of the wrapped watermark text block:
`watermarkTop = imgY + imgHeight + fontSize * 1.5`. -/
def watermarkTopQ (w h : ℕ) : ℚ := imgYQ h + (h : ℚ) + processFontSize w h * (3 / 2)

/-- Baseline of the fixed caption: `websiteTop = watermarkTop + fontSize * 2`. -/
def websiteTopQ (w h : ℕ) : ℚ := watermarkTopQ w h + processFontSize w h * 2

/-- Baseline of wrapped line `i`:
`watermarkTop + index * fontSize * 1.2` from the render loop. -/
def wrappedLineY (w h : ℕ) (i : ℕ) : ℚ :=
  watermarkTopQ w h + (i : ℚ) * (processFontSize w h * (6 / 5))

/-- The wrapped watermark lines computed by `processImage`:
`wrapText(watermarkText, canvasWidth * 0.9, fontSize)`. -/
def wrappedLines (w h : ℕ) (text : String) : List String :=
  wrapText text (canvasWidthQ w * (9 / 10)) (processFontSize w h)

/-- The fixed caption string rendered by `processImage`. -/
def captionText : String := "Protect your documents with DocShield."

/-- C7 (counterexample): with a 100 × 100 resized image and a watermark text
wrapping to three lines, the caption baseline `websiteTop` lies strictly above
the third wrapped line, so the caption is not rendered below the wrapped text
block (its offset is `+2*fontSize` from the first line of the block, not from the
block). -/
theorem caption_overlaps_wrapped_block :
    (wrappedLines 100 100 "AAAAAAAAAAAAA BBBBBBBBBBBBB CCCCCCCCCCCCC").length = 3 ∧
    websiteTopQ 100 100 < wrappedLineY 100 100 2 := by
  have hfs : processFontSize 100 100 = 14 := by
    rw [processFontSize]
    rw [min_self]
    rw [max_eq_left (by norm_num)]
  constructor
  · rw [wrappedLines, hfs,
      show canvasWidthQ 100 * (9 / 10) = 99 from by rw [canvasWidthQ]; norm_num]
    rw [wrapText, show splitWords "AAAAAAAAAAAAA BBBBBBBBBBBBB CCCCCCCCCCCCC" =
      ["AAAAAAAAAAAAA", "BBBBBBBBBBBBB", "CCCCCCCCCCCCC"] from by decide]
    simp only [List.foldl_cons, List.foldl_nil]
    rw [wrapStep_empty]
    rw [wrapStep_over 99 (14 * (55 / 100)) [] "AAAAAAAAAAAAA" "BBBBBBBBBBBBB" (by decide) (by
      rw [estWidth, show ("AAAAAAAAAAAAA" ++ " " ++ "BBBBBBBBBBBBB" : String).length = 27 from rfl]
      norm_num)]
    simp only [List.nil_append]
    rw [wrapStep_over 99 (14 * (55 / 100)) ["AAAAAAAAAAAAA"] "BBBBBBBBBBBBB" "CCCCCCCCCCCCC"
      (by decide) (by
      rw [estWidth, show ("BBBBBBBBBBBBB" ++ " " ++ "CCCCCCCCCCCCC" : String).length = 27 from rfl]
      norm_num)]
    norm_num
    decide
  · rw [websiteTopQ, wrappedLineY, hfs]
    norm_num

/-- C7 (amended): the fixed caption is rendered at a vertical offset of
`+2*fontSize` below the first line of the wrapped watermark block (the top of
the block), for every watermark text and image size; when the block wraps to more
than two lines the caption does not sit below the whole block. -/
theorem caption_offset_from_block_top (w h : ℕ) (text : String) :
    (wrappedLines w h text = wrapText text (canvasWidthQ w * (9 / 10)) (processFontSize w h)) ∧
    websiteTopQ w h = wrappedLineY w h 0 + 2 * processFontSize w h := by
  refine ⟨rfl, ?_⟩
  rw [websiteTopQ, wrappedLineY]
  push_cast
  ring

/-- Round-half-to-even on ℚ, the rounding mode of the `Uint8ClampedArray`
store conversion. On non-ties it agrees with `round`. -/
def roundHalfEven (q : ℚ) : ℤ :=
  if Int.fract q = 1 / 2 then (if Even ⌊q⌋ then ⌊q⌋ else ⌊q⌋ + 1) else round q

/-- The conversion applied by a store `imageData.data[i] = v` into a
`Uint8ClampedArray`: clamp to `[0, 255]`, then round half to even. -/
def toClampedByte (q : ℚ) : ℕ :=
  if q ≤ 0 then 0 else if 255 ≤ q then 255 else (roundHalfEven q).toNat

/-- Luminosity formula `0.3 * R + 0.59 * G + 0.11 * B` from
`applyGrayscaleMask`. -/
def luminosity (r g b : ℚ) : ℚ := (3 / 10) * r + (59 / 100) * g + (11 / 100) * b

/-- One RGBA pixel of an `ImageData` buffer (byte values). -/
structure RGBA where
  r : ℕ
  g : ℕ
  b : ℕ
  a : ℕ
deriving DecidableEq

/-- The flat RGBA layout of `imageData.data`. -/
def flattenRGBA (ps : List RGBA) : List ℕ :=
  ps.foldr (fun p acc => p.r :: p.g :: p.b :: p.a :: acc) []

/-- Unfolding lemma for `flattenRGBA`. -/
theorem flattenRGBA_cons (p : RGBA) (ps : List RGBA) :
    flattenRGBA (p :: ps) = p.r :: p.g :: p.b :: p.a :: flattenRGBA ps := rfl

/-- Per-pixel view of the grayscale mask step: where the red channel of the
mask pixel is 0, all three color channels receive the (byte-stored) luminosity
value and alpha is kept; otherwise the pixel is untouched. -/
def maskPixel (m p : RGBA) : RGBA :=
  if m.r = 0 then
    let v := toClampedByte (luminosity p.r p.g p.b)
    ⟨v, v, v, p.a⟩
  else p

/-- The pixel loop of `applyGrayscaleMask` over the flat `imageData.data`
array: step through the data four bytes at a time, reading the mask red
channel at the same offset (`maskData[i]`). A trailing fragment for which no
full mask pixel exists is left unchanged (in the source the comparison
`maskData[i] === 0` is false for an out-of-range read). -/
def applyGrayscaleData : List ℕ → List ℕ → List ℕ
  | r :: g :: b :: a :: rest, mr :: _ :: _ :: _ :: mrest =>
      if mr = 0 then
        let v := toClampedByte (luminosity r g b)
        v :: v :: v :: a :: applyGrayscaleData rest mrest
      else r :: g :: b :: a :: applyGrayscaleData rest mrest
  | data, _ => data

/-- The clamped byte conversion never exceeds 255. -/
theorem toClampedByte_le (q : ℚ) : toClampedByte q ≤ 255 := by
  rw [toClampedByte]
  split_ifs with h1 h2
  · norm_num
  · norm_num
  · have hq : q < 255 := lt_of_not_le h2
    have hfl : ⌊q⌋ < 255 := Int.floor_lt.mpr (by exact_mod_cast hq)
    have : roundHalfEven q ≤ 255 := by
      rw [roundHalfEven]
      split_ifs with ht he
      · omega
      · omega
      · have : round q ≤ round (255 : ℚ) := roundRatMono (le_of_lt hq)
        rw [show round (255 : ℚ) = ((255 : ℕ) : ℤ) from by
          exact_mod_cast round_natCast (α := ℚ) 255] at this
        exact_mod_cast this
    exact Int.toNat_le.mpr (by exact_mod_cast this)

/-- The clamped byte conversion is the identity on byte values. -/
theorem toClampedByte_natCast (v : ℕ) (hv : v ≤ 255) : toClampedByte (v : ℚ) = v := by
  rw [toClampedByte]
  split_ifs with h1 h2
  · have h0 : v ≤ 0 := by exact_mod_cast h1
    omega
  · have h255 : (255 : ℕ) ≤ v := by exact_mod_cast h2
    omega
  · rw [roundHalfEven, Int.fract_natCast]
    rw [if_neg (by norm_num)]
    rw [round_natCast]
    exact Int.toNat_natCast v

/-- C3: the `applyGrayscaleMask` pixel loop acts on each co-located
data/mask pixel pair independently: where the mask red channel is 0 all
three color channels become the stored luminosity value `0.3R + 0.59G + 0.11B`
with alpha unchanged, and where it is nonzero the pixel is untouched
(equality with the `maskPixel` map over the pixel sequence). -/
theorem applyGrayscaleMask_pixelwise (ps ms : List RGBA) (hlen : ps.length = ms.length) :
    applyGrayscaleData (flattenRGBA ps) (flattenRGBA ms) =
      flattenRGBA (List.zipWith maskPixel ms ps) := by
  induction ps generalizing ms with
  | nil =>
    cases ms with
    | nil => rfl
    | cons m ms => simp at hlen
  | cons p ps ih =>
    cases ms with
    | nil => simp at hlen
    | cons m ms =>
      have hlen2 : ps.length = ms.length := by simpa using hlen
      rw [flattenRGBA_cons, flattenRGBA_cons, List.zipWith_cons_cons, flattenRGBA_cons]
      rw [applyGrayscaleData.eq_1]
      by_cases hm : m.r = 0
      · rw [if_pos hm, maskPixel, if_pos hm]
        rw [ih ms hlen2]
      · rw [if_neg hm, maskPixel, if_neg hm]
        rw [ih ms hlen2]

/-- Witness for `applyGrayscaleMask_pixelwise` on a two-pixel buffer whose
mask is black over the first pixel and white over the second. -/
theorem applyGrayscaleMask_pixelwise_witness :
    applyGrayscaleData (flattenRGBA [⟨10, 20, 30, 40⟩, ⟨50, 60, 70, 80⟩])
        (flattenRGBA [⟨0, 0, 0, 255⟩, ⟨255, 255, 255, 255⟩]) =
      flattenRGBA (List.zipWith maskPixel
        [⟨0, 0, 0, 255⟩, ⟨255, 255, 255, 255⟩] [⟨10, 20, 30, 40⟩, ⟨50, 60, 70, 80⟩]) :=
  applyGrayscaleMask_pixelwise [⟨10, 20, 30, 40⟩, ⟨50, 60, 70, 80⟩]
    [⟨0, 0, 0, 255⟩, ⟨255, 255, 255, 255⟩] (by decide)

/-- C10: the luminosity coefficients sum to 1, so on an equal-channel pixel
the formula returns the channel value exactly, and applying the grayscale
mask loop a second time with the same mask leaves the buffer unchanged. -/
theorem applyGrayscaleMask_idempotent :
    (∀ v : ℚ, luminosity v v v = v) ∧
    ∀ data mask : List ℕ,
      applyGrayscaleData (applyGrayscaleData data mask) mask =
        applyGrayscaleData data mask := by
  have hlum : ∀ v : ℚ, luminosity v v v = v := by
    intro v
    rw [luminosity]
    ring
  refine ⟨hlum, ?_⟩
  intro data mask
  induction data, mask using applyGrayscaleData.induct with
  | case1 r g b a rest m1 m2 m3 mrest ih =>
    rw [applyGrayscaleData.eq_1, if_pos rfl]
    rw [applyGrayscaleData.eq_1, if_pos rfl]
    rw [hlum, toClampedByte_natCast _ (toClampedByte_le _), ih]
  | case2 r g b a rest mr m1 m2 m3 mrest hmr ih =>
    rw [applyGrayscaleData.eq_1, if_neg hmr]
    rw [applyGrayscaleData.eq_1, if_neg hmr]
    rw [ih]
  | case3 data mask h =>
    rw [applyGrayscaleData.eq_2 data mask h, applyGrayscaleData.eq_2 data mask h]

/-- An RGB color as painted on the mask canvas. -/
structure Color where
  r : ℕ
  g : ℕ
  b : ℕ
deriving DecidableEq

/-- The CSS color `"black"` used by `ctx.fillStyle` in
`createScribblePattern`. -/
def blackColor : Color := ⟨0, 0, 0⟩

/-- The CSS color `"white"` used by `ctx.strokeStyle` in
`createScribblePattern`. -/
def whiteColor : Color := ⟨255, 255, 255⟩

/-- Line spacing `Math.max(5, height / 150)` from `createScribblePattern`. -/
def scribbleLineSpacing (h : ℕ) : ℚ := max 5 ((h : ℚ) / 150)

/-- The loop bound `numLines = Math.floor(height / lineSpacing) * 1.2`; the
`for` loop body runs once for every natural `i < numLines`, which is
`ceil numLines` iterations. -/
def scribbleStrokeCount (h : ℕ) : ℕ :=
  (⌈(⌊(h : ℚ) / scribbleLineSpacing h⌋ : ℚ) * (12 / 10)⌉).toNat

/-- Horizontal sampling step `Math.max(2, width / 500)` of the inner stroke
loop. -/
def scribbleStep (w : ℕ) : ℚ := max 2 ((w : ℚ) / 500)

/-- Number of `lineTo` samples: `x` runs from 1 in steps of `scribbleStep`
while `x ≤ width`. -/
def scribbleSampleCount (w : ℕ) : ℕ :=
  if 1 ≤ (w : ℚ) then (⌊((w : ℚ) - 1) / scribbleStep w⌋).toNat + 1 else 0

/-- Stroke height `baseY + amplitude * Math.sin(phase + frequency * x)`, with
the sine supplied as the abstract parameter `s`. -/
def scribbleY (s : ℚ → ℚ) (baseY amp freq phase x : ℚ) : ℚ :=
  baseY + amp * s (phase + freq * x)

/-- The polyline and stroke width of scribble stroke `i`. The three
`Math.random()` draws of iteration `i` are the stream values `rng (3*i)`,
`rng (3*i+1)`, `rng (3*i+2)`, in source order (amplitude, phase, line width);
`piQ` stands for `Math.PI` and `sq` for `Math.sqrt`. -/
def scribbleStroke (s : ℚ → ℚ) (sq : ℚ → ℚ) (piQ : ℚ) (rng : ℕ → ℚ) (w h : ℕ)
    (i : ℕ) : (List (ℚ × ℚ)) × ℚ :=
  let ls := scribbleLineSpacing h
  let baseY := (i : ℚ) * ls + ls / 2
  let amp := max 10 ((h : ℚ) / 60) * (1 / 2 + rng (3 * i) * (1 / 2))
  let freq := max (2 / 1000) (15 / (w : ℚ))
  let phase := rng (3 * i + 1) * 2 * piQ
  let baseScale := sq ((w : ℚ) * (h : ℚ) / (800 * 800))
  let lw := max 1 ((w : ℚ) / 800) + rng (3 * i + 2) * (baseScale * (1 / 2))
  ((0, scribbleY s baseY amp freq phase 0) ::
    (List.range (scribbleSampleCount w)).map (fun k =>
      let x : ℚ := 1 + (k : ℚ) * scribbleStep w
      (x, scribbleY s baseY amp freq phase x)), lw)

/-- The scribble mask surface built by `createScribblePattern`: fill the
canvas black, then stroke each scribble polyline in white. `rast` is the
abstract rasterizer deciding which pixels a stroke of the given polyline and
line width covers. -/
def createScribblePattern (rast : List (ℚ × ℚ) → ℚ → ℤ → ℤ → Bool)
    (s sq : ℚ → ℚ) (piQ : ℚ) (rng : ℕ → ℚ) (w h : ℕ) : ℤ → ℤ → Color :=
  (List.range (scribbleStrokeCount h)).foldl
    (fun acc i =>
      let st := scribbleStroke s sq piQ rng w h i
      fun px py => if rast st.1 st.2 px py then whiteColor else acc px py)
    (fun _ _ => blackColor)

/-- C4: for every width, height, random stream, and rasterizer, every pixel
of the scribble mask is exactly pure black or pure white; only those two
colors are ever painted, so no intermediate channel value can occur. -/
theorem createScribblePattern_binary
    (rast : List (ℚ × ℚ) → ℚ → ℤ → ℤ → Bool) (s sq : ℚ → ℚ) (piQ : ℚ)
    (rng : ℕ → ℚ) (w h : ℕ) (px py : ℤ) :
    createScribblePattern rast s sq piQ rng w h px py = blackColor ∨
    createScribblePattern rast s sq piQ rng w h px py = whiteColor := by
  have aux : ∀ (L : List ℕ) (init : ℤ → ℤ → Color),
      (∀ a b, init a b = blackColor ∨ init a b = whiteColor) →
      ∀ a b,
        (L.foldl
          (fun acc i =>
            let st := scribbleStroke s sq piQ rng w h i
            fun qx qy => if rast st.1 st.2 qx qy then whiteColor else acc qx qy)
          init) a b = blackColor ∨
        (L.foldl
          (fun acc i =>
            let st := scribbleStroke s sq piQ rng w h i
            fun qx qy => if rast st.1 st.2 qx qy then whiteColor else acc qx qy)
          init) a b = whiteColor := by
    intro L
    induction L with
    | nil => intro init hinit; exact hinit
    | cons i L ih =>
      intro init hinit
      rw [List.foldl_cons]
      apply ih
      intro a b
      by_cases hc : rast (scribbleStroke s sq piQ rng w h i).1
          (scribbleStroke s sq piQ rng w h i).2 a b
      · right; simp only [hc, if_true]
      · rcases hinit a b with hb | hw
        · left
          simp only [hc, if_false, hb]
          rfl
        · right
          simp only [hc, if_false, hw]
          rfl
  exact aux (List.range (scribbleStrokeCount h)) (fun _ _ => blackColor)
    (fun _ _ => Or.inl rfl) px py

/-- A single call
`mainCtx.drawImage(patternCanvas, x, 0, 1, height, x, offset, 1, height)`:
copy the one-pixel-wide, full-height column `x` of the pattern onto the
target at vertical position `offset`. -/
def drawColumnSlice {α : Type} (target pattern : ℤ → ℤ → α) (x offset hgt : ℤ) :
    ℤ → ℤ → α :=
  fun px py =>
    if px = x ∧ offset ≤ py ∧ py < offset + hgt then pattern x (py - offset)
    else target px py

/-- The per-column vertical offset
`Math.round(baseShift + amplitude * Math.sin(frequency * x + phase))` of
`warpTextColumns`. -/
def waveOffset (amp freq phase baseShift : ℚ) (s : ℚ → ℚ) (x : ℕ) : ℤ :=
  round (baseShift + amp * s (freq * (x : ℚ) + phase))

/-- The `for` loop of `warpTextColumns`: for every column `x` in
`[0, width)`, in increasing order, draw the one-pixel-wide slice of the
pattern at `x` onto the accumulated surface at vertical offset
`waveOffset x` (the recursion step `n+1` performs the loop iteration
`x = n` last, exactly as the loop does). -/
def warpTextColumns {α : Type} (target pattern : ℤ → ℤ → α) (width height : ℕ)
    (amp freq phase baseShift : ℚ) (s : ℚ → ℚ) : ℤ → ℤ → α :=
  match width with
  | 0 => target
  | n + 1 =>
      drawColumnSlice (warpTextColumns target pattern n height amp freq phase baseShift s)
        pattern (n : ℤ) (waveOffset amp freq phase baseShift s n) (height : ℤ)

/-- Columns at or beyond `width` are never written by `warpTextColumns`. -/
theorem warpTextColumns_untouched {α : Type} (target pattern : ℤ → ℤ → α)
    (width height : ℕ) (amp freq phase baseShift : ℚ) (s : ℚ → ℚ)
    (px py : ℤ) (hpx : ∀ i : ℕ, i < width → px ≠ (i : ℤ)) :
    warpTextColumns target pattern width height amp freq phase baseShift s px py =
      target px py := by
  induction width with
  | zero => rfl
  | succ n ih =>
    rw [warpTextColumns, drawColumnSlice]
    rw [if_neg (by
      rintro ⟨heq, -⟩
      exact hpx n (Nat.lt_succ_self n) heq)]
    exact ih (fun i hi => hpx i (Nat.lt_succ_of_lt hi))

/-- Closed form of `warpTextColumns` on a column `x < width`: the pattern
column `x` appears at vertical offset `waveOffset x`, and the target shows
through elsewhere. -/
theorem warpTextColumns_closed_form {α : Type} (target pattern : ℤ → ℤ → α)
    (width height : ℕ) (amp freq phase baseShift : ℚ) (s : ℚ → ℚ)
    (x : ℕ) (hx : x < width) (py : ℤ) :
    warpTextColumns target pattern width height amp freq phase baseShift s (x : ℤ) py =
      if waveOffset amp freq phase baseShift s x ≤ py ∧
          py < waveOffset amp freq phase baseShift s x + (height : ℤ) then
        pattern (x : ℤ) (py - waveOffset amp freq phase baseShift s x)
      else target (x : ℤ) py := by
  induction width with
  | zero => exact absurd hx (Nat.not_lt_zero x)
  | succ n ih =>
    rw [warpTextColumns, drawColumnSlice]
    rcases Nat.lt_succ_iff_lt_or_eq.mp hx with h1 | rfl
    · rw [if_neg (by
        rintro ⟨heq, -⟩
        exact Nat.ne_of_lt h1 (by exact_mod_cast heq))]
      exact ih h1
    · by_cases hin : waveOffset amp freq phase baseShift s x ≤ py ∧
          py < waveOffset amp freq phase baseShift s x + (height : ℤ)
      · rw [if_pos ⟨rfl, hin⟩, if_pos hin]
      · rw [if_neg (by
          rintro ⟨-, hrest⟩
          exact hin hrest), if_neg hin]
        exact warpTextColumns_untouched target pattern x height amp freq phase baseShift s
          (x : ℤ) py (fun i hi => by
            intro heq
            exact Nat.ne_of_lt hi (by exact_mod_cast heq.symm))

/-- Font size `Math.max(8, Math.min(finalWidth, finalHeight) / 70)` from
`applyWatermark`. -/
def watermarkFontSize (fw fh : ℚ) : ℚ := max 8 (min fw fh / 70)

/-- `extraPadding = Math.round(fontSize * 10)` from `applyWatermark`. -/
def watermarkExtraPadding (fw fh : ℚ) : ℤ := round (watermarkFontSize fw fh * 10)

/-- `patternWidth = finalWidth + extraPadding * 2` from `applyWatermark`. -/
def patternWidthQ (fw fh : ℚ) : ℚ := fw + (watermarkExtraPadding fw fh : ℚ) * 2

/-- `patternHeight = finalHeight + extraPadding * 5` from `applyWatermark`. -/
def patternHeightQ (fw fh : ℚ) : ℚ := fh + (watermarkExtraPadding fw fh : ℚ) * 5

/-- `baseShift = -finalHeight * 0.1` from `applyWatermark`. -/
def watermarkBaseShift (fh : ℚ) : ℚ := -fh * (1 / 10)

/-- The call `warpTextColumns(ctx, patternCanvas, patternWidth, patternHeight,
amplitude, frequency, phase, baseShift)` issued at the end of
`applyWatermark`, with the pattern canvas dimensions truncated into the
canvas as usual. -/
def applyWatermarkWarp {α : Type} (target pattern : ℤ → ℤ → α) (fw fh : ℚ)
    (amp freq phase : ℚ) (s : ℚ → ℚ) : ℤ → ℤ → α :=
  warpTextColumns target pattern ⌊patternWidthQ fw fh⌋₊ ⌊patternHeightQ fw fh⌋₊
    amp freq phase (watermarkBaseShift fh) s

/-- C6: for every column `x` in `[0, patternWidth)`, the wave warp invoked by
`applyWatermark` computes the offset
`round(baseShift + amplitude * sin(frequency*x + phase))` with the base shift
fixed at `-0.1 * outputHeight`, and copies the full-height one-pixel-wide
pattern column at `x` onto the target at horizontal position `x` and vertical
position `offset`. -/
theorem applyWatermark_column_copy (α : Type) (target pattern : ℤ → ℤ → α)
    (fw fh : ℚ) (amp freq phase : ℚ) (s : ℚ → ℚ) (x : ℕ)
    (hx : x < ⌊patternWidthQ fw fh⌋₊) (py : ℤ) :
    applyWatermarkWarp target pattern fw fh amp freq phase s (x : ℤ) py =
      if round (-fh * (1 / 10) + amp * s (freq * (x : ℚ) + phase)) ≤ py ∧
          py < round (-fh * (1 / 10) + amp * s (freq * (x : ℚ) + phase)) +
            (⌊patternHeightQ fw fh⌋₊ : ℤ) then
        pattern (x : ℤ) (py - round (-fh * (1 / 10) + amp * s (freq * (x : ℚ) + phase)))
      else target (x : ℤ) py := by
  have h := warpTextColumns_closed_form target pattern ⌊patternWidthQ fw fh⌋₊
    ⌊patternHeightQ fw fh⌋₊ amp freq phase (watermarkBaseShift fh) s x hx py
  rw [applyWatermarkWarp]
  rw [h]
  rfl

/-- Witness for `applyWatermark_column_copy` at concrete surfaces and
parameters: with a 10 × 10 output the pattern canvas is 170 columns wide, and
column 0 of the constant-7 pattern shows through at row 5. -/
theorem applyWatermark_column_copy_witness :
    (0 < ⌊patternWidthQ 10 10⌋₊) ∧
    applyWatermarkWarp (fun _ _ => (0 : ℕ)) (fun _ _ => 7) 10 10 0 0 0
      (fun _ => 0) 0 5 = 7 := by
  have hfs : watermarkFontSize 10 10 = 8 := by
    rw [watermarkFontSize, min_self]
    exact max_eq_left (by norm_num)
  have hpad : watermarkExtraPadding 10 10 = 80 := by
    rw [watermarkExtraPadding, hfs]
    rw [show (8 : ℚ) * 10 = ((80 : ℤ) : ℚ) by norm_num]
    exact round_intCast 80
  have hw : ⌊patternWidthQ 10 10⌋₊ = 170 := by
    rw [patternWidthQ, hpad]
    rw [show (10 : ℚ) + ((80 : ℤ) : ℚ) * 2 = ((170 : ℕ) : ℚ) by norm_num]
    exact Nat.floor_natCast 170
  have hh : ⌊patternHeightQ 10 10⌋₊ = 410 := by
    rw [patternHeightQ, hpad]
    rw [show (10 : ℚ) + ((80 : ℤ) : ℚ) * 5 = ((410 : ℕ) : ℚ) by norm_num]
    exact Nat.floor_natCast 410
  have hx : 0 < ⌊patternWidthQ 10 10⌋₊ := by rw [hw]; norm_num
  refine ⟨hx, ?_⟩
  have h := applyWatermark_column_copy ℕ (fun _ _ => 0) (fun _ _ => 7) 10 10 0 0 0
    (fun _ => 0) 0 hx 5
  rw [Nat.cast_zero] at h
  rw [h, hh]
  rw [show (-(10 : ℚ) * (1 / 10) + 0 * 0) = ((-1 : ℤ) : ℚ) by norm_num]
  rw [round_intCast]
  rw [if_pos (by constructor <;> norm_num)]

/-- C9 (counterexample): at a 700 × 700 output surface the watermark font
size is 10, the claimed horizontal padding `10*fontSize` and vertical padding
`5*fontSize*2` are both 100, but the pattern canvas actually exceeds the
output by 200 horizontally and by 500 vertically. -/
theorem pattern_padding_not_fontSize :
    patternWidthQ 700 700 - 700 = 200 ∧
    patternHeightQ 700 700 - 700 = 500 ∧
    10 * watermarkFontSize 700 700 = 100 ∧
    (5 * watermarkFontSize 700 700) * 2 = 100 ∧
    (200 : ℚ) ≠ 100 ∧ (500 : ℚ) ≠ 100 := by
  have hfs : watermarkFontSize 700 700 = 10 := by
    rw [watermarkFontSize, min_self]
    rw [show (700 : ℚ) / 70 = 10 by norm_num]
    exact max_eq_right (by norm_num)
  have hpad : watermarkExtraPadding 700 700 = 100 := by
    rw [watermarkExtraPadding, hfs]
    rw [show (10 : ℚ) * 10 = ((100 : ℤ) : ℚ) by norm_num]
    exact round_intCast 100
  refine ⟨?_, ?_, ?_, ?_, by norm_num, by norm_num⟩
  · rw [patternWidthQ, hpad]; norm_num
  · rw [patternHeightQ, hpad]; norm_num
  · rw [hfs]; norm_num
  · rw [hfs]; norm_num

/-- C9 (amended): the pattern surface handed to the wave warp exceeds the
final surface by exactly `2 * round(10*fontSize)` horizontally and
`5 * round(10*fontSize)` vertically, where `round(10*fontSize)` is the
`extraPadding` of `applyWatermark`. -/
theorem pattern_padding_formula (fw fh : ℚ) :
    patternWidthQ fw fh - fw = 2 * (watermarkExtraPadding fw fh : ℚ) ∧
    patternHeightQ fw fh - fh = 5 * (watermarkExtraPadding fw fh : ℚ) ∧
    watermarkExtraPadding fw fh = round (watermarkFontSize fw fh * 10) := by
  refine ⟨?_, ?_, rfl⟩
  · rw [patternWidthQ]; ring
  · rw [patternHeightQ]; ring

/-- Availability of the drawing surfaces and contexts requested during one
`processImage` run: the `canvas` argument itself, its `"2d"` context, and the
`"2d"` contexts of the offscreen canvases created by `resizeImage`,
`applyGrayscaleMask` and `applyWatermark`. -/
structure PipelineEnv where
  canvasPresent : Bool
  mainCtx : Bool
  resizeCtx : Bool
  maskCtx : Bool
  patternCtx : Bool

/-- Which stages of a completed `processImage` run had any effect. -/
structure PipelineTrace where
  imageDrawn : Bool
  watermarkApplied : Bool
  grayscaleApplied : Bool

/-- Control flow of `processImage`: `if (!canvas) return;` and
`if (!ctx) return;` abort before any output is produced (`none`). After
that the run completes: `resizeImage` returns a blank canvas when its own
context is unavailable, and `applyWatermark` / `applyGrayscaleMask` each
`return` early from the helper alone when their offscreen context is
unavailable, so those stages are merely skipped. -/
def runProcessImage (env : PipelineEnv) : Option PipelineTrace :=
  if !env.canvasPresent then none
  else if !env.mainCtx then none
  else some ⟨env.resizeCtx, env.patternCtx, env.maskCtx⟩

/-- Whether the run reaches the final `setPreview(canvas.toDataURL(...))`
call, which is executed exactly when `processImage` did not return early. -/
def setPreviewInvoked (env : PipelineEnv) : Bool :=
  (runProcessImage env).isSome

/-- C8 (counterexample): when only the grayscale mask context is unavailable
(a context-acquisition failure at an inner stage of the pipeline),
`applyGrayscaleMask` returns early but `processImage` still runs to the end
and invokes `setPreview`. -/
theorem preview_called_despite_ctx_failure :
    (PipelineEnv.mk true true true false true).maskCtx = false ∧
    setPreviewInvoked (PipelineEnv.mk true true true false true) = true := by
  exact ⟨rfl, rfl⟩

/-- C8 (amended): `setPreview` is invoked exactly when the top-level canvas
exists and its `"2d"` context is available; those two failures abort silently
with no output, while context failures of the inner stages (resize, pattern,
mask) only skip the effect of that stage. -/
theorem setPreview_iff_canvas_and_ctx (env : PipelineEnv) :
    setPreviewInvoked env = (env.canvasPresent && env.mainCtx) := by
  rcases env with ⟨cp, mc, rc, kc, pc⟩
  cases cp <;> cases mc <;> rfl

end DocShield
